import Mathlib

/-!
Verification development for the deriv-algo-trading repository (BOOM-500
"first sell" strategy runtime).  The JavaScript modules are shallowly
embedded as pure Lean functions over explicit state records:

* `src/src/modules/risk_guardian.js`   → `RiskState`, `checkDailyCap`,
  `processTick`, `triggerEmergencyBrake`, `updateDailyStats`
* `src/src/modules/strategy_engine.js` (BOOM variant) → `EngineState`,
  `onTickStep`, `onSMAsE`, `executeTrade`, `checkOpenTrades`, …
* `src/unnamed/part_010` (MarketData)  → `MDState`, `handleOhlc`,
  `calculateSMAs`
* `src/backend/src/core/Deriv.js`      → `DerivState`, `derivSend`,
  `derivHandleMessage`
* `src/backend/src/models/DailyStat.js` → `DailyStat`

Prices and money are rationals, times are naturals (milliseconds since
epoch), the UTC date string `YYYY-MM-DD` is the day index `now / 86400000`.
JavaScript nullish values that flow into comparisons are modelled by
`JsVal` (null, undefined, or a number), with the JS coercion rules
`x >= null ⟺ x >= 0` and `x >= undefined ⟺ false`.
-/

-- Batteries marks the rational-number operations `@[irreducible]`, which
-- blocks `decide` from evaluating concrete runs of the embedded handlers.
-- Restore default reducibility; soundness is untouched (the kernel ignores
-- reducibility attributes).
set_option allowUnsafeReducibility true in
attribute [semireducible] Rat.add Rat.sub Rat.mul Rat.inv Rat.div Rat.ofScientific

namespace DerivAlgo

/-- A JavaScript value that an SMA slot may hold: `null` (initial value in
the engine), `undefined` (result of indexing an empty array in
`calculateSMAs`), or a number. -/
inductive JsVal where
  | jnull
  | jundef
  | jnum (v : ℚ)
deriving DecidableEq

/-- JS truthiness of an SMA slot: a number other than 0. -/
def JsVal.truthy : JsVal → Bool
  | .jnum v => v ≠ 0
  | _ => false

/-- JS `p >= x` for a number `p`: `null` coerces to 0, `undefined` to NaN
(so every comparison is false). -/
def jsGE (p : ℚ) : JsVal → Bool
  | .jnull => 0 ≤ p
  | .jundef => false
  | .jnum v => v ≤ p

/-- JS `a <= x` for a number `a` against a possibly-nullish `x`. -/
def jsNumLE (a : ℚ) : JsVal → Bool
  | .jnull => a ≤ 0
  | .jundef => false
  | .jnum v => a ≤ v

/-- JS `a > x` for a number `a` against a possibly-nullish `x`. -/
def jsNumGT (a : ℚ) : JsVal → Bool
  | .jnull => 0 < a
  | .jundef => false
  | .jnum v => v < a

/-- The SMA cluster `{sma200, sma100, sma50, sma25}` as stored both by
MarketData and by the StrategyEngine. -/
structure SMAs where
  sma200 : JsVal
  sma100 : JsVal
  sma50  : JsVal
  sma25  : JsVal
deriving DecidableEq

/-- `strategy_engine.js`: `marketState` is the string
`"RESTRICTED"`/`"PERMISSIVE"`. -/
inductive MarketState where
  | restricted
  | permissive
deriving DecidableEq

/-- Close reasons that appear in the engine (`closeAllTrades(reason)` and
the TP/SL branch of `checkOpenTrades`). -/
inductive Reason where
  | trainDetected
  | restrictedState
  | crossoverGuard
  | tpHit
  | slHit
deriving DecidableEq

/-- An outbound order produced by one event handler: a `proposal:1`
request (`execution.requestProposal`) or a market sell
(`execution.sellContract`). -/
inductive Order where
  | proposal
  | sell (cid : ℕ) (reason : Reason)
deriving DecidableEq

/-- One `DailyStat` row (`src/backend/src/models/DailyStat.js`), with the
schema defaults `accumulated_profit = 0`, `trades_taken = 0`,
`is_cap_reached = false`. -/
structure DailyStat where
  accumulated_profit : ℚ
  trades_taken : ℕ
  is_cap_reached : Bool
deriving DecidableEq

/-- Schema defaults of `DailyStatSchema`. -/
def defaultDailyStat : DailyStat :=
  { accumulated_profit := 0, trades_taken := 0, is_cap_reached := false }

/-- The persistent `DailyStat` collection, keyed by UTC day index. -/
abbrev DB := List (ℕ × DailyStat)

/-- `getTodayDateString` returns the UTC date `YYYY-MM-DD`; we model the
date by the day index of the millisecond clock. -/
def dayOf (now : ℕ) : ℕ := now / 86400000

/-- `DailyStat.findOne({date})`. -/
def findDay (db : DB) (d : ℕ) : Option DailyStat :=
  (db.find? (fun r => r.1 = d)).map (·.2)

/-- Replace the row for day `d` (Mongoose `save` after a field update). -/
def writeDay (db : DB) (d : ℕ) (st : DailyStat) : DB :=
  db.map (fun r => if r.1 = d then (d, st) else r)

/-- `RiskGuardian` mutable state (`risk_guardian.js` constructor):
`tickHistory` bounded to the last 5 prices, and the train-pause latch.
The code stores `pauseUntil = null` when unpaused; the field is only read
under `isPaused`, so we keep it as a plain natural and reset it to 0. -/
structure RiskState where
  tickHistory : List ℚ
  isPaused : Bool
  pauseUntil : ℕ
deriving DecidableEq

def initRisk : RiskState := { tickHistory := [], isPaused := false, pauseUntil := 0 }

/-- `RiskGuardian.triggerEmergencyBrake`: pause for 15 minutes. -/
def triggerEmergencyBrake (g : RiskState) (now : ℕ) : RiskState :=
  { g with isPaused := true, pauseUntil := now + 15 * 60 * 1000 }

/-- `RiskGuardian.checkDailyCap` (risk_guardian.js lines 30‑90).  Returns
the boolean result together with the updated guardian state and store.
While a train pause is active it reports `true` without touching the
store; an expired pause is cleared; otherwise today's row is fetched
(created with schema defaults when missing) and the 8.00 cap is applied,
setting `is_cap_reached` only when not already set. -/
def checkDailyCap (g : RiskState) (db : DB) (now : ℕ) : Bool × RiskState × DB :=
  if g.isPaused ∧ now < g.pauseUntil then
    (true, g, db)
  else
    let g1 : RiskState :=
      if g.isPaused then { g with isPaused := false, pauseUntil := 0 } else g
    let d := dayOf now
    match findDay db d with
    | none =>
        -- `DailyStat.create({date})`: a fresh row with schema defaults.
        let db1 := db ++ [(d, defaultDailyStat)]
        if defaultDailyStat.accumulated_profit ≥ 8 then (true, g1, db1) else (false, g1, db1)
    | some stat =>
        if stat.accumulated_profit ≥ 8 then
          if stat.is_cap_reached then
            (true, g1, db)
          else
            (true, g1, writeDay db d { stat with is_cap_reached := true })
        else
          (false, g1, db)

/-- `RiskGuardian.updateDailyStats`: atomic upsert `$inc` of profit and
trade count, then set the cap flag if the new total crossed 8.00. -/
def updateDailyStats (db : DB) (profit : ℚ) (now : ℕ) : DB :=
  let d := dayOf now
  let db1 :=
    match findDay db d with
    | none => db ++ [(d, { accumulated_profit := profit, trades_taken := 1,
                           is_cap_reached := false })]
    | some stat => writeDay db d { stat with
        accumulated_profit := stat.accumulated_profit + profit,
        trades_taken := stat.trades_taken + 1 }
  match findDay db1 d with
  | none => db1
  | some stat =>
      if stat.accumulated_profit ≥ 8 then
        writeDay db1 d { stat with is_cap_reached := true }
      else db1

/-- The rolling push of `processTick`: append the price, then `shift` one
element off the front when the buffer exceeds 5. -/
def pushTrim (h : List ℚ) (p : ℚ) : List ℚ :=
  let h1 := h ++ [p]
  if 5 < h1.length then h1.tail else h1

/-- `RiskGuardian.processTick` (risk_guardian.js lines 231‑320): push the
price into the rolling buffer, and with at least 3 buffered prices check
whether the two most recent deltas both exceed +4.0; on a train, trigger
the emergency brake. -/
def processTick (g : RiskState) (price : ℚ) (now : ℕ) : Bool × RiskState :=
  let prices := pushTrim g.tickHistory price
  let g1 := { g with tickHistory := prices }
  if prices.length < 3 then
    (false, g1)
  else
    let lastPrice := prices.getD (prices.length - 1) 0
    let prevPrice := prices.getD (prices.length - 2) 0
    let prevPrevPrice := prices.getD (prices.length - 3) 0
    let delta1 := lastPrice - prevPrice
    let delta2 := prevPrice - prevPrevPrice
    if 4 < delta1 ∧ 4 < delta2 then
      (true, triggerEmergencyBrake g1 now)
    else
      (false, g1)

/-! ### StrategyEngine (strategy_engine.js, BOOM variant) -/

/-- `StrategyEngine` mutable state (constructor of the BOOM variant).
`activeTrades` is the `Map contract_id → { entry_price }`, modelled as an
association list in insertion order. -/
structure EngineState where
  currentPrice : Option ℚ
  previousPrice : Option ℚ
  smas : SMAs
  marketState : MarketState
  activeTrades : List (ℕ × ℚ)
  cooldownUntil : ℕ
  prevSmas : Option SMAs
  isTrading : Bool
deriving DecidableEq

def initEngine : EngineState :=
  { currentPrice := none, previousPrice := none,
    smas := { sma200 := .jnull, sma100 := .jnull, sma50 := .jnull, sma25 := .jnull },
    marketState := .restricted, activeTrades := [], cooldownUntil := 0,
    prevSmas := none, isTrading := false }

/-- JS `Map.set`: overwrite an existing key in place, else append. -/
def mapSet (m : List (ℕ × ℚ)) (k : ℕ) (v : ℚ) : List (ℕ × ℚ) :=
  if m.any (fun kv => kv.1 == k) then
    m.map (fun kv => if kv.1 == k then (k, v) else kv)
  else m ++ [(k, v)]

/-- `StrategyEngine.updateMarketState` (lines 523‑567): keep the current
state while `smas.sma200` is falsy; otherwise RESTRICTED iff the price is
`>=` any of sma200/sma100/sma50 (JS coercions apply), else PERMISSIVE.
`currentPrice` is always set at the call site (the tick handler). -/
def updateMarketState (e : EngineState) : EngineState :=
  if ¬ e.smas.sma200.truthy then e
  else
    let price := e.currentPrice.getD 0
    if jsGE price e.smas.sma200 ∨ jsGE price e.smas.sma100 ∨ jsGE price e.smas.sma50 then
      { e with marketState := .restricted }
    else
      { e with marketState := .permissive }

/-- `StrategyEngine.checkOpenTrades` (lines 597‑658): for every open
(short) trade, sell when `entry − current ≥ 15` (TP) or
`−(entry − current) ≥ 5` (SL).  Pure: returns the sell orders sent. -/
def checkOpenTrades (trades : List (ℕ × ℚ)) (currentPrice : ℚ) : List Order :=
  trades.filterMap (fun kv =>
    let diff := kv.2 - currentPrice
    if diff ≥ 15 then some (.sell kv.1 .tpHit)
    else if -diff ≥ 5 then some (.sell kv.1 .slHit)
    else none)

/-- `StrategyEngine.closeAllTrades(reason)`: one market sell per open
contract id. -/
def closeAllTrades (trades : List (ℕ × ℚ)) (reason : Reason) : List Order :=
  trades.map (fun kv => .sell kv.1 reason)

/-- Result of `executeTrade`: the three mutated states plus the orders
sent to `execution`. -/
structure ExecOut where
  engine : EngineState
  guard : RiskState
  db : DB
  orders : List Order
deriving DecidableEq

/-- `StrategyEngine.executeTrade` (lines 569‑588): bail out if
`isTrading` is already set; otherwise take the lock, consult
`riskGuardian.checkDailyCap`, release the lock and abort on a reached cap,
else request a proposal. -/
def executeTrade (e : EngineState) (g : RiskState) (db : DB) (now : ℕ) : ExecOut :=
  if e.isTrading then ⟨e, g, db, []⟩
  else
    let e1 := { e with isTrading := true }
    let r := checkDailyCap g db now
    if r.1 then ⟨{ e1 with isTrading := false }, r.2.1, r.2.2, []⟩
    else ⟨e1, r.2.1, r.2.2, [.proposal]⟩

/-- An engine-only handler result: new engine state plus sent orders. -/
structure EngOut where
  engine : EngineState
  orders : List Order
deriving DecidableEq

/-- `StrategyEngine.onSMAs` (lines 445‑521): store the new cluster; when
`prevSmas` and both SMA25 slots are truthy, detect an upward crossover of
SMA25 over SMA50 or SMA100 (`prev25 <= prevK && curr25 > currK`, JS
coercions on the K slots); on a crossover close all trades with reason
CROSSOVER_GUARD and set a 5‑minute cooldown.  Finally `prevSmas ← smas`
unconditionally. -/
def onSMAsE (e : EngineState) (m : SMAs) (now : ℕ) : EngOut :=
  let e1 := { e with smas := m }
  let out : EngOut :=
    match e1.prevSmas with
    | some p =>
        match p.sma25, m.sma25 with
        | .jnum p25, .jnum c25 =>
            if p25 ≠ 0 ∧ c25 ≠ 0 then
              let cross50 := jsNumLE p25 p.sma50 && jsNumGT c25 m.sma50
              let cross100 := jsNumLE p25 p.sma100 && jsNumGT c25 m.sma100
              if cross50 || cross100 then
                ⟨{ e1 with cooldownUntil := now + 5 * 60 * 1000 },
                 closeAllTrades e1.activeTrades .crossoverGuard⟩
              else ⟨e1, []⟩
            else ⟨e1, []⟩
        | _, _ => ⟨e1, []⟩
    | none => ⟨e1, []⟩
  ⟨{ out.engine with prevSmas := some m }, out.orders⟩

/-- The `trade_opened` listener (lines 241‑251): clear `isTrading`,
register the trade.  (`riskGuardian.recordTradeEntry` writes a `Trade`
row, which is outside the modelled state.) -/
def onTradeOpenedE (e : EngineState) (cid : ℕ) (buyPrice : ℚ) : EngineState :=
  { e with isTrading := false, activeTrades := mapSet e.activeTrades cid buyPrice }

/-- `StrategyEngine.handleTradeClosed` (lines 291‑309): when the contract
is tracked, compute `profit = sell_price − entry_price`, run
`recordTradeExit` (whose `DailyStat` effect is `updateDailyStats`), and
unregister; otherwise only log. -/
def handleTradeClosedE (e : EngineState) (db : DB) (cid : ℕ) (sellPrice : ℚ) (now : ℕ) :
    EngineState × DB :=
  match e.activeTrades.find? (fun kv => kv.1 == cid) with
  | some kv =>
      let profit := sellPrice - kv.2
      ({ e with activeTrades := e.activeTrades.filter (fun kv2 => kv2.1 != cid) },
       updateDailyStats db profit now)
  | none => (e, db)

/-- The `rate_limit` listener (lines 257‑261): overwrite the cooldown
with `now + 60 s` and clear `isTrading`. -/
def onRateLimitE (e : EngineState) (now : ℕ) : EngineState :=
  { e with cooldownUntil := now + 60000, isTrading := false }

/-- The `error` listener (lines 263‑266): clear `isTrading`. -/
def onErrorE (e : EngineState) : EngineState :=
  { e with isTrading := false }

/-! ### The composed system

`Sys` couples the engine, the risk guardian and the `DailyStat` store with
one piece of environment bookkeeping: `inFlight`, the number of proposal
requests sent to the broker and not yet answered by a `buy` response
(`trade_opened`) or a broker error.  `Enabled` expresses the environment
discipline: market prices are positive, SMA events come from
`MarketData.calculateSMAs` (whose `sma200` definedness is monotone — the
candle count never shrinks — and which never defines `sma200` without
`sma100`/`sma50`), and `trade_opened`/broker-error events only answer an
actual in-flight proposal. -/

structure Sys where
  engine : EngineState
  guard : RiskState
  db : DB
  inFlight : ℕ
deriving DecidableEq

structure SysOut where
  sys : Sys
  orders : List Order
deriving DecidableEq

def countProposals (l : List Order) : ℕ :=
  (l.filter (fun o => match o with | .proposal => true | _ => false)).length

/-- The `tick` listener `StrategyEngine.onTick` (lines 311‑443), lifted to
the composed system: shift prices, run the train detector (early return on
a train), evaluate TP/SL, stop without a previous price, recompute the
market state, stop during cooldown, then either the spike-entry logic
(PERMISSIVE) or the close-everything logic (RESTRICTED). -/
def onTickStep (s : Sys) (price : ℚ) (now : ℕ) : SysOut :=
  let e1 := { s.engine with previousPrice := s.engine.currentPrice,
                            currentPrice := some price }
  let tg := processTick s.guard price now
  let g1 := tg.2
  if tg.1 then
    ⟨{ s with engine := e1, guard := g1 }, closeAllTrades e1.activeTrades .trainDetected⟩
  else
    let tpsl := checkOpenTrades e1.activeTrades price
    match e1.previousPrice with
    | none => ⟨{ s with engine := e1, guard := g1 }, tpsl⟩
    | some prev =>
        let delta := price - prev
        let e2 := updateMarketState e1
        if now < e2.cooldownUntil then
          ⟨{ s with engine := e2, guard := g1 }, tpsl⟩
        else if e2.marketState = .permissive then
          if 4 < delta then
            if e2.marketState = .permissive then
              let r := executeTrade e2 g1 s.db now
              ⟨{ engine := r.engine, guard := r.guard, db := r.db,
                 inFlight := s.inFlight + countProposals r.orders }, tpsl ++ r.orders⟩
            else ⟨{ s with engine := e2, guard := g1 }, tpsl⟩
          else ⟨{ s with engine := e2, guard := g1 }, tpsl⟩
        else
          if 0 < e2.activeTrades.length then
            ⟨{ s with engine := e2, guard := g1 },
             tpsl ++ closeAllTrades e2.activeTrades .restrictedState⟩
          else ⟨{ s with engine := e2, guard := g1 }, tpsl⟩

def smasStep (s : Sys) (m : SMAs) (now : ℕ) : SysOut :=
  let r := onSMAsE s.engine m now
  ⟨{ s with engine := r.engine }, r.orders⟩

def openedStep (s : Sys) (cid : ℕ) (bp : ℚ) : SysOut :=
  ⟨{ s with engine := onTradeOpenedE s.engine cid bp, inFlight := s.inFlight - 1 }, []⟩

def closedStep (s : Sys) (cid : ℕ) (sp : ℚ) (now : ℕ) : SysOut :=
  let r := handleTradeClosedE s.engine s.db cid sp now
  ⟨{ s with engine := r.1, db := r.2 }, []⟩

def rateLimitStep (s : Sys) (now : ℕ) : SysOut :=
  ⟨{ s with engine := onRateLimitE s.engine now, inFlight := s.inFlight - 1 }, []⟩

def errorStep (s : Sys) : SysOut :=
  ⟨{ s with engine := onErrorE s.engine, inFlight := s.inFlight - 1 }, []⟩

/-- The events the StrategyEngine processes (its event listeners). -/
inductive Event where
  | tick (price : ℚ) (now : ℕ)
  | smasUpd (m : SMAs) (now : ℕ)
  | tradeOpened (cid : ℕ) (buyPrice : ℚ)
  | tradeClosed (cid : ℕ) (sellPrice : ℚ) (now : ℕ)
  | rateLimited (now : ℕ)
  | execFailed
deriving DecidableEq

def JsVal.isNum : JsVal → Bool
  | .jnum _ => true
  | _ => false

/-- Environment discipline (see the header of this section). -/
def Enabled (s : Sys) : Event → Bool
  | .tick p _ => decide ((0 : ℚ) < p)
  | .smasUpd m _ =>
      (!(s.engine.smas.sma200.truthy) || m.sma200.truthy) &&
      (!(m.sma200.isNum) || (m.sma100.isNum && m.sma50.isNum))
  | .tradeOpened _ _ => 1 ≤ s.inFlight
  | .tradeClosed _ _ _ => true
  | .rateLimited _ => 1 ≤ s.inFlight
  | .execFailed => 1 ≤ s.inFlight

def stepOut (s : Sys) : Event → SysOut
  | .tick p now => onTickStep s p now
  | .smasUpd m now => smasStep s m now
  | .tradeOpened cid bp => openedStep s cid bp
  | .tradeClosed cid sp now => closedStep s cid sp now
  | .rateLimited now => rateLimitStep s now
  | .execFailed => errorStep s

def step (s : Sys) (e : Event) : Sys := (stepOut s e).sys

def initSys (db0 : DB) : Sys :=
  { engine := initEngine, guard := initRisk, db := db0, inFlight := 0 }

/-- Run a whole event list from boot (with an arbitrary pre-existing
`DailyStat` store `db0`). -/
def runEvents (db0 : DB) (evs : List Event) : Sys :=
  evs.foldl step (initSys db0)

/-- A run is valid when every event is enabled in the state it meets. -/
def validRun (db0 : DB) (evs : List Event) : Bool :=
  (evs.foldl (fun acc ev => (acc.1 && Enabled acc.2 ev, step acc.2 ev))
    (true, initSys db0)).1

/-- States reachable from boot through enabled events. -/
inductive Reachable (db0 : DB) : Sys → Prop where
  | init : Reachable db0 (initSys db0)
  | next {s : Sys} (e : Event) :
      Reachable db0 s → Enabled s e = true → Reachable db0 (step s e)

/-! ### MarketData (src/unnamed/part_010) -/

/-- One OHLC candle as stored in `MarketData.candles`.  (`open` is a Lean
keyword, hence `opn`.) -/
structure Candle where
  epoch : ℕ
  opn : ℚ
  high : ℚ
  low : ℚ
  close : ℚ
deriving DecidableEq

/-- `MarketData` state: the (single-timeframe) candle array and the
stored SMA cluster. -/
structure MDState where
  candles : List Candle
  smas : SMAs
deriving DecidableEq

/-- `technicalindicators` `SMA.calculate({period, values})`, of which the
code keeps only the last element: the mean of the final `period` values,
or JS `undefined` (indexing `[-1]` into the empty result) when fewer
values exist. -/
def smaLast (period : ℕ) (values : List ℚ) : JsVal :=
  if values.length < period then .jundef
  else .jnum ((values.drop (values.length - period)).sum / (period : ℚ))

/-- `MarketData.calculateSMAs` (part_010 lines 215‑296): with fewer than
200 candles do nothing; otherwise compute the cluster over
`closePrices.slice(0, -1)` — all closes except the still-forming last
candle. -/
def calculateSMAs (st : MDState) : MDState :=
  if st.candles.length < 200 then st
  else
    let closePrices := st.candles.map (·.close)
    let closedCandlesPrices := closePrices.dropLast
    { st with smas :=
        { sma200 := smaLast 200 closedCandlesPrices,
          sma100 := smaLast 100 closedCandlesPrices,
          sma50 := smaLast 50 closedCandlesPrices,
          sma25 := smaLast 25 closedCandlesPrices } }

/-- The `ohlc` branch of `MarketData.handleMessage` (part_010 lines
143‑197): same epoch as the last candle → in-place overwrite of the
forming candle; new epoch → append, trim to 300, and recompute the SMAs.
The second component counts the `calculateSMAs` invocations (0 or 1). -/
def handleOhlc (st : MDState) (o : Candle) : MDState × ℕ :=
  match st.candles.getLast? with
  | some last =>
      if last.epoch == o.epoch then
        ({ st with candles := st.candles.dropLast ++ [o] }, 0)
      else
        let cs := st.candles ++ [o]
        let cs2 := if 300 < cs.length then cs.tail else cs
        (calculateSMAs { st with candles := cs2 }, 1)
  | none =>
      (calculateSMAs { st with candles := [o] }, 1)

/-- Replace the close of the forming (last) candle — the "synthetic
forming candle with extreme close" of the spec's property test. -/
def setLastClose (cs : List Candle) (q : ℚ) : List Candle :=
  match cs.getLast? with
  | some last => cs.dropLast ++ [{ last with close := q }]
  | none => cs

/-! ### Request/response correlator (src/backend/src/core/Deriv.js) -/

/-- An inbound frame: its correlation id (absent for stream messages) and
an abstract body. -/
structure WireMsg where
  req_id : Option ℕ
  body : ℕ
deriving DecidableEq

/-- How a pending promise can complete in `Deriv.js`: with the matching
response message, or with the `ws.send` callback error.  The code has no
timeout path, so no other completion exists. -/
inductive DResolution where
  | response (body : ℕ)
  | sendFailed
deriving DecidableEq

/-- `Deriv` correlator state: the socket flag, `pendingRequests`
(`req_id → {resolve, reject, payload}`, keeping the payload), the
monotone `reqIdCounter`, and the log of completed promises. -/
structure DerivState where
  wsOpen : Bool
  pendingRequests : List (ℕ × ℕ)
  reqIdCounter : ℕ
  resolved : List (ℕ × DResolution)
deriving DecidableEq

def initDeriv : DerivState :=
  { wsOpen := true, pendingRequests := [], reqIdCounter := 1, resolved := [] }

/-- `Deriv.send` (Deriv.js lines 73‑92), successful `ws.send` callback:
reject immediately when the socket is not open (nothing registered), else
tag the payload with the next `req_id` and store the pending resolver. -/
def derivSend (st : DerivState) (payload : ℕ) : DerivState :=
  if ¬ st.wsOpen then st
  else
    { st with pendingRequests := st.pendingRequests ++ [(st.reqIdCounter, payload)],
              reqIdCounter := st.reqIdCounter + 1 }

/-- The `ws.send` callback error path inside `Deriv.send`: drop the slot
and reject. -/
def derivSendCallbackFailed (st : DerivState) (r : ℕ) : DerivState :=
  { st with pendingRequests := st.pendingRequests.filter (fun kv => kv.1 != r),
            resolved := st.resolved ++ [(r, .sendFailed)] }

/-- `Deriv._handleMessage` (Deriv.js lines 110‑135): when the frame
carries a truthy `req_id` with a pending slot, resolve that promise with
the message and free the slot; otherwise only log / route stream hooks
(no correlator state change). -/
def derivHandleMessage (st : DerivState) (msg : WireMsg) : DerivState :=
  match msg.req_id with
  | some r =>
      if r ≠ 0 ∧ st.pendingRequests.any (fun kv => kv.1 == r) then
        { st with pendingRequests := st.pendingRequests.filter (fun kv => kv.1 != r),
                  resolved := st.resolved ++ [(r, .response msg.body)] }
      else st
  | none => st

/-! ### Spec-side comparison definitions -/

/-- Modelled from the spec: `market_state = PERMISSIVE ⟺ sma50, sma100,
sma200 defined ∧ price < min(sma50, sma100, sma200)`. -/
def permissiveSpec (m : SMAs) (p : ℚ) : Bool :=
  match m.sma50, m.sma100, m.sma200 with
  | .jnum a, .jnum b, .jnum c => decide (p < min a (min b c))
  | _, _, _ => false

/-- Modelled from the spec: the train condition over a price buffer —
at least 3 buffered prices and both of the two most recent deltas
strictly above +4.0. -/
def trainSpec (buf : List ℚ) : Bool :=
  match buf.reverse with
  | c :: b :: a :: _ => decide (4 < c - b) && decide (4 < b - a)
  | _ => false

/-- Feed a price series to a fresh train detector, collecting the
per-arrival results. -/
def runDetector (ps : List ℚ) : List Bool :=
  (ps.foldl (fun acc p =>
      let r := processTick acc.2 p 0
      (acc.1 ++ [r.1], r.2)) (([] : List Bool), initRisk)).1

/-- Run a sequence of `checkDailyCap` calls (each with its own clock
reading and store), collecting the results. -/
def runCaps (g : RiskState) : List (ℕ × DB) → List Bool
  | [] => []
  | c :: rest =>
      let r := checkDailyCap g c.2 c.1
      r.1 :: runCaps r.2.1 rest

/-! ### Concrete scenario values used by witnesses and counterexamples -/

/-- Previous SMA cluster of the spec's crossover scenario
(`prev.sma25 = 49, prev.sma50 = 50`). -/
def c7Prev : SMAs := ⟨.jnum 70, .jnum 60, .jnum 50, .jnum 49⟩

/-- New SMA cluster of the spec's crossover scenario
(`new.sma25 = 51, new.sma50 = 50`). -/
def c7New : SMAs := ⟨.jnum 70, .jnum 60, .jnum 50, .jnum 51⟩

/-- Engine state with one open trade awaiting the crossover scenario. -/
def c7Engine : EngineState :=
  { initEngine with
      prevSmas := some c7Prev
      activeTrades := [(7, 100)] }

/-- An SMA cluster sitting at 200 on all four averages. -/
def smas200 : SMAs := ⟨.jnum 200, .jnum 200, .jnum 200, .jnum 200⟩

/-- An SMA cluster sitting at 110 on all four averages. -/
def smas110 : SMAs := ⟨.jnum 110, .jnum 110, .jnum 110, .jnum 110⟩

/-- A valid composed run that opens two trades: a spike entry at 104.1,
its `trade_opened`, a quiet tick, a second spike entry at 108.3 (the
price rise since entry stays below the 5-point stop), and the second
`trade_opened`.  No guard consults `active_trades` before proposing. -/
def twoTradesTrace : List Event :=
  [.smasUpd smas200 0, .tick 100 1, .tick 104.1 2, .tradeOpened 1 104.1,
   .tick 104.2 3, .tick 108.3 4, .tradeOpened 2 108.3]

/-- A valid composed run whose final tick is a train: ticks 100, 103,
107.2 (spike entry) and 115, where the last two deltas (+4.2, +7.8) both
exceed +4.0, so the tick handler returns before recomputing the market
state. -/
def trainTickTrace : List Event :=
  [.smasUpd smas110 0, .tick 100 1, .tick 103 2, .tick 107.2 3]

/-- The state just before the train tick of `trainTickTrace`. -/
def preTrainSys : Sys := runEvents [] trainTickTrace

/-- The base state of the C2 witness: SMAs at 110, one processed tick. -/
def c2Base : Sys := step (step (initSys []) (.smasUpd smas110 0)) (.tick 100 1)

/-! ### Store helper lemmas -/

lemma findDay_append_self (db : DB) (d : ℕ) (st : DailyStat)
    (h : findDay db d = none) : findDay (db ++ [(d, st)]) d = some st := by
  unfold findDay at h ⊢
  rw [List.find?_append]
  cases hf : db.find? (fun r => r.1 = d) with
  | none => simp [List.find?]
  | some v => rw [hf] at h; simp at h

lemma findDay_writeDay (db : DB) (d : ℕ) (st st' : DailyStat)
    (h : findDay db d = some st) : findDay (writeDay db d st') d = some st' := by
  unfold findDay writeDay at *
  induction db with
  | nil => simp at h
  | cons rr rest ih =>
      rw [List.map_cons]
      by_cases hr : rr.1 = d
      · rw [if_pos hr, List.find?_cons_of_pos _ (by simp)]
        rfl
      · rw [if_neg hr, List.find?_cons_of_neg _ (by simpa using hr)]
        rw [List.find?_cons_of_neg _ (by simpa using hr)] at h
        exact ih h

/-! ### C8 — the rate_limit handler -/

/-- C8, counterexample: the claim says `cooldown_until` becomes
`max(cooldown_until, now + 60 s)`.  With a running cooldown of 400000 ms
and a rate limit at 200000 ms the code overwrites the cooldown with
260000 ms — strictly earlier than the claimed max of 400000 ms. -/
theorem rate_limit_shortens_running_cooldown :
    (onRateLimitE { initEngine with cooldownUntil := 400000 } 200000).cooldownUntil
        = 260000 ∧
    max ({ initEngine with cooldownUntil := 400000 } : EngineState).cooldownUntil
        (200000 + 60000) = 400000 ∧
    (260000 : ℕ) ≠ 400000 := by decide

/-- C8, amended: on a `rate_limit` event the engine overwrites
`cooldown_until` with `now + 60 s` (an already-later cooldown IS
shortened) and clears `is_trading`. -/
theorem rate_limit_sets_sixty_second_cooldown (e : EngineState) (now : ℕ) :
    (onRateLimitE e now).cooldownUntil = now + 60000 ∧
    (onRateLimitE e now).isTrading = false ∧
    (now + 60000 < e.cooldownUntil →
      (onRateLimitE e now).cooldownUntil < e.cooldownUntil) := by
  refine ⟨rfl, rfl, fun h => ?_⟩
  simpa [onRateLimitE] using h

/-- Witness for C8's amended theorem at a concrete running cooldown. -/
theorem rate_limit_sets_sixty_second_cooldown_witness :
    200000 + 60000 < ({ initEngine with cooldownUntil := 400000 } : EngineState).cooldownUntil ∧
    (onRateLimitE { initEngine with cooldownUntil := 400000 } 200000).cooldownUntil <
      ({ initEngine with cooldownUntil := 400000 } : EngineState).cooldownUntil :=
  ⟨by decide,
   (rate_limit_sets_sixty_second_cooldown { initEngine with cooldownUntil := 400000 }
      200000).2.2 (by decide)⟩

/-! ### C9 — pending-call deadlines -/

/-- C9, counterexample: the claim says every pending call carries a 5 s
deadline and fires with Timeout when unanswered.  The code registers no
deadline: after a send (req_id 1) and three unrelated inbound frames
(standing in for the deadline passing with no matching response), the
slot is still pending and no resolver has fired at all. -/
theorem pending_call_never_resolved_by_deadline :
    (([⟨some 2, 0⟩, ⟨none, 5⟩, ⟨some 3, 9⟩] : List WireMsg).foldl derivHandleMessage
        (derivSend initDeriv 77)).pendingRequests = [(1, 77)] ∧
    (([⟨some 2, 0⟩, ⟨none, 5⟩, ⟨some 3, 9⟩] : List WireMsg).foldl derivHandleMessage
        (derivSend initDeriv 77)).resolved = [] := by decide

/-- C9, amended: pending requests carry no deadline.  A pending slot
survives the processing of any messages that do not carry its `req_id`,
and its resolution log is untouched — an unanswered call stays pending
indefinitely. -/
theorem pending_slot_freed_only_by_matching_response (st : DerivState)
    (msgs : List WireMsg) (r payload : ℕ)
    (hmem : (r, payload) ∈ st.pendingRequests)
    (hnomatch : ∀ m ∈ msgs, m.req_id ≠ some r) :
    (r, payload) ∈ (msgs.foldl derivHandleMessage st).pendingRequests ∧
    (msgs.foldl derivHandleMessage st).resolved.filter (fun kv => kv.1 == r) =
      st.resolved.filter (fun kv => kv.1 == r) := by
  induction msgs generalizing st with
  | nil => exact ⟨hmem, rfl⟩
  | cons m ms ih =>
      have hm : m.req_id ≠ some r := hnomatch m (by simp)
      have hrec := fun st' hmem' =>
        ih st' hmem' (fun x hx => hnomatch x (by simp [hx]))
      rw [List.foldl_cons]
      have hstep :
          (r, payload) ∈ (derivHandleMessage st m).pendingRequests ∧
          (derivHandleMessage st m).resolved.filter (fun kv => kv.1 == r) =
            st.resolved.filter (fun kv => kv.1 == r) := by
        rcases hid : m.req_id with _ | r'
        · unfold derivHandleMessage
          rw [hid]
          exact ⟨hmem, rfl⟩
        · have hrr : r' ≠ r := fun h => hm (by rw [hid, h])
          unfold derivHandleMessage
          rw [hid]
          dsimp only
          by_cases hcond : r' ≠ 0 ∧ (st.pendingRequests.any fun kv => kv.1 == r') = true
          · rw [if_pos hcond]
            refine ⟨List.mem_filter.mpr ⟨hmem, ?_⟩, ?_⟩
            · simpa [bne_iff_ne] using Ne.symm hrr
            · rw [List.filter_append]
              have hnil :
                  List.filter (fun kv => kv.1 == r)
                    [(r', DResolution.response m.body)] = [] := by
                simp [hrr]
              rw [hnil, List.append_nil]
          · rw [if_neg hcond]
            exact ⟨hmem, rfl⟩
      exact ⟨(hrec _ hstep.1).1, by rw [(hrec _ hstep.1).2, hstep.2]⟩

/-- Witness for C9's amended theorem: req 1 survives an unrelated frame. -/
theorem pending_slot_freed_only_by_matching_response_witness :
    ((1, 42) ∈ (derivSend initDeriv 42).pendingRequests) ∧
    (∀ m ∈ ([⟨some 2, 0⟩] : List WireMsg), m.req_id ≠ some 1) ∧
    ((1, 42) ∈ (([⟨some 2, 0⟩] : List WireMsg).foldl derivHandleMessage
        (derivSend initDeriv 42)).pendingRequests) :=
  ⟨by decide, by decide,
   (pending_slot_freed_only_by_matching_response (derivSend initDeriv 42)
      [⟨some 2, 0⟩] 1 42 (by decide) (by decide)).1⟩

/-! ### C10 — checkDailyCap creates today's row -/

/-- C10: when the guardian is not inside an active pause and no
`DailyStat` row exists for today, `checkDailyCap` creates the row with
the schema defaults as a side effect — and still reports the cap not
reached. -/
theorem checkDailyCap_creates_todays_row (g : RiskState) (db : DB) (now : ℕ)
    (hnp : ¬ (g.isPaused = true ∧ now < g.pauseUntil))
    (hmiss : findDay db (dayOf now) = none) :
    (checkDailyCap g db now).1 = false ∧
    (checkDailyCap g db now).2.2 = db ++ [(dayOf now, defaultDailyStat)] ∧
    findDay (checkDailyCap g db now).2.2 (dayOf now) = some defaultDailyStat := by
  have hres : checkDailyCap g db now =
      (false, if g.isPaused then { g with isPaused := false, pauseUntil := 0 } else g,
       db ++ [(dayOf now, defaultDailyStat)]) := by
    unfold checkDailyCap
    rw [if_neg hnp]
    simp only [hmiss]
    norm_num [defaultDailyStat]
  rw [hres]
  exact ⟨rfl, rfl, findDay_append_self db _ _ hmiss⟩

/-- Witness for C10 at an empty store. -/
theorem checkDailyCap_creates_todays_row_witness :
    ¬ (initRisk.isPaused = true ∧ 0 < initRisk.pauseUntil) ∧
    findDay ([] : DB) (dayOf 0) = none ∧
    (checkDailyCap initRisk [] 0).2.2 = [] ++ [(dayOf 0, defaultDailyStat)] :=
  ⟨by decide, by decide,
   (checkDailyCap_creates_todays_row initRisk [] 0 (by decide) (by decide)).2.1⟩

/-! ### C6 — the emergency brake pause -/

lemma runCaps_paused (g : RiskState) (hp : g.isPaused = true) :
    ∀ calls : List (ℕ × DB), (∀ c ∈ calls, c.1 < g.pauseUntil) →
      runCaps g calls = calls.map (fun _ => true) := by
  intro calls
  induction calls with
  | nil => intro _; rfl
  | cons c rest ih =>
      intro hall
      have hc : c.1 < g.pauseUntil := hall c (by simp)
      have hcap : checkDailyCap g c.2 c.1 = (true, g, c.2) := by
        unfold checkDailyCap
        rw [if_pos ⟨hp, hc⟩]
      unfold runCaps
      rw [hcap, List.map_cons]
      exact congrArg _ (ih (fun x hx => hall x (by simp [hx])))

/-- C6: `triggerEmergencyBrake` pauses for exactly 15 minutes
(`paused_until = now + 15 m`), and every `checkDailyCap` call whose clock
reading lies before `paused_until` reports "cap reached" regardless of
the store contents. -/
theorem emergency_brake_pauses_fifteen_minutes (g : RiskState) (now : ℕ) :
    (triggerEmergencyBrake g now).isPaused = true ∧
    (triggerEmergencyBrake g now).pauseUntil = now + 15 * 60 * 1000 ∧
    (∀ calls : List (ℕ × DB), (∀ c ∈ calls, c.1 < now + 15 * 60 * 1000) →
      runCaps (triggerEmergencyBrake g now) calls = calls.map (fun _ => true)) := by
  refine ⟨rfl, rfl, fun calls h => runCaps_paused _ rfl calls ?_⟩
  simpa [triggerEmergencyBrake] using h

/-- Witness for C6: two in-pause calls (one with a rich store) both
report cap reached. -/
theorem emergency_brake_pauses_fifteen_minutes_witness :
    (∀ c ∈ ([(0, ([] : DB)), (899999, [(0, defaultDailyStat)])] : List (ℕ × DB)),
        c.1 < 0 + 15 * 60 * 1000) ∧
    runCaps (triggerEmergencyBrake initRisk 0)
      [(0, ([] : DB)), (899999, [(0, defaultDailyStat)])] = [true, true] := by
  refine ⟨by decide, ?_⟩
  have h := (emergency_brake_pauses_fifteen_minutes initRisk 0).2.2
    [(0, ([] : DB)), (899999, [(0, defaultDailyStat)])] (by decide)
  simpa using h

/-! ### C5 — the daily profit cap -/

/-- C5, counterexample: with the guardian inside an active train pause
and today's row at the 8.00 cap with the flag still unset,
`checkDailyCap` reports "cap reached" but does NOT mark
`is_cap_reached` — the claim's unconditional "marks is_cap_reached=true
idempotently" fails. -/
theorem daily_cap_flag_not_marked_during_pause :
    8 ≤ ((findDay [(dayOf 500, DailyStat.mk 8 1 false)] (dayOf 500)).map
          (·.accumulated_profit)).getD 0 ∧
    (checkDailyCap { tickHistory := [], isPaused := true, pauseUntil := 1000 }
        [(dayOf 500, DailyStat.mk 8 1 false)] 500).1 = true ∧
    findDay (checkDailyCap { tickHistory := [], isPaused := true, pauseUntil := 1000 }
        [(dayOf 500, DailyStat.mk 8 1 false)] 500).2.2 (dayOf 500) =
      some (DailyStat.mk 8 1 false) := by decide

/-- C5, amended: whenever today's row holds `accumulated_profit ≥ 8.00`,
`checkDailyCap` reports "cap reached"; outside an active pause it also
marks `is_cap_reached = true`, writing the store only when the flag was
not already set; and an entry signal (`executeTrade`) sends no proposal
while leaving `is_trading` as it found it (false stays false). -/
theorem daily_cap_lockout (g : RiskState) (db : DB) (now : ℕ) (st : DailyStat)
    (hrow : findDay db (dayOf now) = some st)
    (hcap : st.accumulated_profit ≥ 8) :
    (checkDailyCap g db now).1 = true ∧
    (¬ (g.isPaused = true ∧ now < g.pauseUntil) →
      findDay (checkDailyCap g db now).2.2 (dayOf now) =
        some { st with is_cap_reached := true } ∧
      (st.is_cap_reached = true → (checkDailyCap g db now).2.2 = db)) ∧
    (∀ e : EngineState,
      (executeTrade e g db now).orders = [] ∧
      (executeTrade e g db now).engine.isTrading = e.isTrading) := by
  have hmain : (checkDailyCap g db now).1 = true ∧
      (¬ (g.isPaused = true ∧ now < g.pauseUntil) →
        findDay (checkDailyCap g db now).2.2 (dayOf now) =
          some { st with is_cap_reached := true } ∧
        (st.is_cap_reached = true → (checkDailyCap g db now).2.2 = db)) := by
    unfold checkDailyCap
    by_cases hp : g.isPaused = true ∧ now < g.pauseUntil
    · rw [if_pos hp]
      exact ⟨rfl, fun hnp => absurd hp hnp⟩
    · rw [if_neg hp]
      simp only [hrow]
      rw [if_pos hcap]
      by_cases hflag : st.is_cap_reached = true
      · rw [if_pos hflag]
        refine ⟨rfl, fun _ => ⟨?_, fun _ => rfl⟩⟩
        rw [hrow]
        cases st
        simp_all
      · rw [if_neg hflag]
        refine ⟨rfl, fun _ => ⟨?_, fun hf => absurd hf hflag⟩⟩
        exact findDay_writeDay db _ st _ hrow
  refine ⟨hmain.1, hmain.2, fun e => ?_⟩
  unfold executeTrade
  by_cases ht : e.isTrading = true
  · rw [if_pos ht]
    exact ⟨rfl, rfl⟩
  · rw [if_neg ht]
    simp only [hmain.1, if_true]
    refine ⟨trivial, ?_⟩
    simp only [Bool.not_eq_true] at ht
    rw [ht]

/-- Witness for C5's amended theorem at a concrete capped day. -/
theorem daily_cap_lockout_witness :
    findDay [(dayOf 0, DailyStat.mk 8 1 false)] (dayOf 0) = some (DailyStat.mk 8 1 false) ∧
    (DailyStat.mk 8 1 false).accumulated_profit ≥ 8 ∧
    (checkDailyCap initRisk [(dayOf 0, DailyStat.mk 8 1 false)] 0).1 = true ∧
    (executeTrade initEngine initRisk [(dayOf 0, DailyStat.mk 8 1 false)] 0).orders = [] :=
  ⟨by decide, by decide,
   (daily_cap_lockout initRisk _ 0 (DailyStat.mk 8 1 false) (by decide) (by decide)).1,
   ((daily_cap_lockout initRisk _ 0 (DailyStat.mk 8 1 false) (by decide) (by decide)).2.2
      initEngine).1⟩

/-! ### C4 — the train detector -/

lemma exists_last_three {α : Type} (l : List α) (h : 3 ≤ l.length) :
    ∃ t a b c, l = t ++ [a, b, c] := by
  match hrev : l.reverse with
  | [] => rw [← l.length_reverse, hrev] at h; simp at h
  | [x] => rw [← l.length_reverse, hrev] at h; simp at h
  | [x, y] => rw [← l.length_reverse, hrev] at h; simp at h
  | c :: b :: a :: rest =>
      refine ⟨rest.reverse, a, b, c, ?_⟩
      have := congrArg List.reverse hrev
      simpa using this

lemma getD_last_three {α : Type} [Inhabited α] (t : List α) (a b c : α) (d : α) :
    (t ++ [a, b, c]).getD ((t ++ [a, b, c]).length - 1) d = c ∧
    (t ++ [a, b, c]).getD ((t ++ [a, b, c]).length - 2) d = b ∧
    (t ++ [a, b, c]).getD ((t ++ [a, b, c]).length - 3) d = a := by
  have hlen : (t ++ [a, b, c]).length = t.length + 3 := by simp
  rw [hlen]
  refine ⟨?_, ?_, ?_⟩
  · rw [show t.length + 3 - 1 = t.length + 2 from rfl,
      List.getD_append_right _ _ _ _ (by omega)]
    simp
  · rw [show t.length + 3 - 2 = t.length + 1 from rfl,
      List.getD_append_right _ _ _ _ (by omega)]
    simp
  · rw [show t.length + 3 - 3 = t.length + 0 from rfl,
      List.getD_append_right _ _ _ _ (by omega)]
    simp

lemma processTick_eq_trainSpec (g : RiskState) (p : ℚ) (now : ℕ) :
    (processTick g p now).1 = trainSpec (pushTrim g.tickHistory p) := by
  unfold processTick
  by_cases h3 : (pushTrim g.tickHistory p).length < 3
  · rw [if_pos h3]
    unfold trainSpec
    match hrev : (pushTrim g.tickHistory p).reverse with
    | [] => rfl
    | [x] => rfl
    | [x, y] => rfl
    | c :: b :: a :: rest =>
        exfalso
        have : 3 ≤ (pushTrim g.tickHistory p).reverse.length := by rw [hrev]; simp
        rw [List.length_reverse] at this
        omega
  · rw [if_neg h3]
    obtain ⟨t, a, b, c, ht⟩ :=
      exists_last_three (pushTrim g.tickHistory p) (by omega)
    rw [ht]
    obtain ⟨g1, g2, g3⟩ := getD_last_three t a b c (0 : ℚ)
    rw [g1, g2, g3]
    have hrev : (t ++ [a, b, c]).reverse = c :: b :: a :: t.reverse := by simp
    unfold trainSpec
    rw [hrev]
    by_cases h1 : 4 < c - b <;> by_cases h2 : 4 < b - a <;> simp [h1, h2]

/-- C4, counterexample: the claim says the series
`[100, 100, 104.1, 108.2, 108.2]` never triggers, but the detector fires
on the fourth arrival (the first 108.2), where the two most recent deltas
are +4.1 and +4.1. -/
theorem train_series_triggers_on_fourth_arrival :
    runDetector [100, 100, 104.1, 108.2, 108.2] = [false, false, false, true, false] ∧
    (runDetector [100, 100, 104.1, 108.2, 108.2]).getD 3 false = true := by decide

/-- C4, amended: the detector keeps a rolling buffer of at most 5 prices
and reports a train iff, after the new price is pushed, the buffer holds
at least 3 prices whose two most recent deltas both exceed +4.0.  The
series `[100, 100, 104.1, 108.2, 108.2]` triggers exactly on the fourth
arrival (not on the last), and `[100, 104.1, 108.3, 112.5]` triggers on
the third and on the last arrival. -/
theorem train_detector_two_recent_deltas :
    (∀ (g : RiskState) (p : ℚ) (now : ℕ),
      (processTick g p now).1 = trainSpec (pushTrim g.tickHistory p)) ∧
    (∀ (h : List ℚ) (p : ℚ), h.length ≤ 5 → (pushTrim h p).length ≤ 5) ∧
    runDetector [100, 100, 104.1, 108.2, 108.2] = [false, false, false, true, false] ∧
    runDetector [100, 104.1, 108.3, 112.5] = [false, false, true, true] := by
  refine ⟨processTick_eq_trainSpec, fun h p hl => ?_, by decide, by decide⟩
  unfold pushTrim
  dsimp only
  split
  · simpa using hl
  · next hcond =>
      simp only [List.length_append, List.length_cons, List.length_nil] at hcond ⊢
      omega

/-- Witness for C4's amended theorem. -/
theorem train_detector_two_recent_deltas_witness :
    ((processTick { tickHistory := [100, 104.1], isPaused := false, pauseUntil := 0 }
        (108.3 : ℚ) 0).1 =
      trainSpec (pushTrim [100, 104.1] (108.3 : ℚ))) ∧
    ([100, 104.1, 108.3, 100, 100] : List ℚ).length ≤ 5 ∧
    (pushTrim ([100, 104.1, 108.3, 100, 100] : List ℚ) 99).length ≤ 5 :=
  ⟨train_detector_two_recent_deltas.1
      { tickHistory := [100, 104.1], isPaused := false, pauseUntil := 0 } (108.3 : ℚ) 0,
   by decide,
   train_detector_two_recent_deltas.2.1 [100, 104.1, 108.3, 100, 100] 99 (by decide)⟩

/-! ### C3 — SMAs over closed candles only -/

/-- C3: (i) an in-place update of the forming candle (same epoch as the
last array element) leaves the stored SMA cluster unchanged and performs
no recomputation, whatever the injected close; (ii) the computed cluster
never depends on the forming candle's close (the last element is sliced
off the close series); (iii) a candle close (new epoch) recomputes the
cluster exactly once, over the appended-and-trimmed array. -/
theorem smas_computed_over_closed_candles_only :
    (∀ (st : MDState) (o last : Candle), st.candles.getLast? = some last →
      last.epoch = o.epoch →
      (handleOhlc st o).1.smas = st.smas ∧ (handleOhlc st o).2 = 0) ∧
    (∀ (cs : List Candle) (q : ℚ) (m0 : SMAs), cs ≠ [] →
      (calculateSMAs ⟨setLastClose cs q, m0⟩).smas = (calculateSMAs ⟨cs, m0⟩).smas) ∧
    (∀ (st : MDState) (o last : Candle), st.candles.getLast? = some last →
      last.epoch ≠ o.epoch →
      (handleOhlc st o).1 = calculateSMAs { st with candles :=
          if 300 < (st.candles ++ [o]).length then (st.candles ++ [o]).tail
          else st.candles ++ [o] } ∧
      (handleOhlc st o).2 = 1) := by
  refine ⟨?_, ?_, ?_⟩
  · intro st o last hlast hep
    unfold handleOhlc
    rw [hlast]
    dsimp only
    rw [if_pos (by simpa using hep)]
    exact ⟨rfl, rfl⟩
  · intro cs q m0 hne
    have hlast : ∃ last, cs.getLast? = some last := by
      cases hcs : cs.getLast? with
      | none => exact absurd (List.getLast?_eq_none_iff.mp hcs) hne
      | some v => exact ⟨v, rfl⟩
    obtain ⟨last, hlast⟩ := hlast
    unfold setLastClose
    rw [hlast]
    unfold calculateSMAs
    have hpos : 0 < cs.length := List.length_pos.mpr hne
    have hlen : (cs.dropLast ++ [{ last with close := q }]).length = cs.length := by
      simp [List.length_dropLast]
      omega
    rw [hlen]
    by_cases h200 : cs.length < 200
    · rw [if_pos h200, if_pos h200]
    · rw [if_neg h200, if_neg h200]
      have key : ((cs.dropLast ++ [{ last with close := q }]).map
            (fun x : Candle => x.close)).dropLast
          = (cs.map (fun x : Candle => x.close)).dropLast := by
        simp only [List.map_append, List.map_cons, List.map_nil, List.dropLast_concat]
        exact List.map_dropLast _ _
      simp only [key]
  · intro st o last hlast hep
    unfold handleOhlc
    rw [hlast]
    dsimp only
    rw [if_neg (by simpa using hep)]
    exact ⟨rfl, rfl⟩

/-- Witness for C3, on a one-candle book: a forming-candle update with an
extreme close leaves the cluster untouched; the close-candle branch
recomputes once. -/
theorem smas_computed_over_closed_candles_only_witness :
    (([⟨1, 10, 11, 9, 10⟩] : List Candle).getLast? = some ⟨1, 10, 11, 9, 10⟩) ∧
    ((1 : ℕ) = 1) ∧
    (handleOhlc ⟨[⟨1, 10, 11, 9, 10⟩], ⟨.jnull, .jnull, .jnull, .jnull⟩⟩
        ⟨1, 10, 99999, 9, 99999⟩).1.smas = ⟨.jnull, .jnull, .jnull, .jnull⟩ ∧
    (([⟨1, 10, 11, 9, 10⟩] : List Candle) ≠ []) ∧
    (calculateSMAs ⟨setLastClose [⟨1, 10, 11, 9, 10⟩] 99999,
        ⟨.jnull, .jnull, .jnull, .jnull⟩⟩).smas =
      (calculateSMAs ⟨[⟨1, 10, 11, 9, 10⟩], ⟨.jnull, .jnull, .jnull, .jnull⟩⟩).smas ∧
    ((1 : ℕ) ≠ 2) ∧
    (handleOhlc ⟨[⟨1, 10, 11, 9, 10⟩], ⟨.jnull, .jnull, .jnull, .jnull⟩⟩
        ⟨2, 10, 11, 9, 10⟩).2 = 1 :=
  ⟨by decide, rfl,
   (smas_computed_over_closed_candles_only.1
      ⟨[⟨1, 10, 11, 9, 10⟩], ⟨.jnull, .jnull, .jnull, .jnull⟩⟩
      ⟨1, 10, 99999, 9, 99999⟩ ⟨1, 10, 11, 9, 10⟩ (by decide) rfl).1,
   by decide,
   smas_computed_over_closed_candles_only.2.1 [⟨1, 10, 11, 9, 10⟩] 99999
      ⟨.jnull, .jnull, .jnull, .jnull⟩ (by decide),
   by decide,
   (smas_computed_over_closed_candles_only.2.2
      ⟨[⟨1, 10, 11, 9, 10⟩], ⟨.jnull, .jnull, .jnull, .jnull⟩⟩
      ⟨2, 10, 11, 9, 10⟩ ⟨1, 10, 11, 9, 10⟩ (by decide) (by decide)).2⟩

/-! ### Engine helper lemmas (shared by the invariant proofs) -/

lemma updateMarketState_proj (e : EngineState) :
    (updateMarketState e).cooldownUntil = e.cooldownUntil ∧
    (updateMarketState e).activeTrades = e.activeTrades ∧
    (updateMarketState e).isTrading = e.isTrading ∧
    (updateMarketState e).smas = e.smas ∧
    (updateMarketState e).currentPrice = e.currentPrice ∧
    (updateMarketState e).previousPrice = e.previousPrice ∧
    (updateMarketState e).prevSmas = e.prevSmas := by
  unfold updateMarketState
  split
  · exact ⟨rfl, rfl, rfl, rfl, rfl, rfl, rfl⟩
  · dsimp only
    split
    · exact ⟨rfl, rfl, rfl, rfl, rfl, rfl, rfl⟩
    · exact ⟨rfl, rfl, rfl, rfl, rfl, rfl, rfl⟩

lemma updateMarketState_of_not_truthy (e : EngineState)
    (h : ¬ e.smas.sma200.truthy = true) : updateMarketState e = e := by
  unfold updateMarketState
  rw [if_pos h]

lemma updateMarketState_permissive (e : EngineState)
    (h : (updateMarketState e).marketState = .permissive) :
    e.smas.sma200.truthy = true ∨ e.marketState = .permissive := by
  by_cases ht : e.smas.sma200.truthy = true
  · exact Or.inl ht
  · rw [updateMarketState_of_not_truthy e ht] at h
    exact Or.inr h

lemma countProposals_nil : countProposals [] = 0 := rfl

lemma countProposals_append (l1 l2 : List Order) :
    countProposals (l1 ++ l2) = countProposals l1 + countProposals l2 := by
  simp [countProposals, List.filter_append]

lemma countProposals_closeAllTrades (t : List (ℕ × ℚ)) (r : Reason) :
    countProposals (closeAllTrades t r) = 0 := by
  induction t with
  | nil => rfl
  | cons kv rest ih =>
      simpa [closeAllTrades, countProposals, List.filter] using ih

lemma countProposals_cons_sell (c : ℕ) (r : Reason) (l : List Order) :
    countProposals (.sell c r :: l) = countProposals l := by
  simp [countProposals, List.filter]

lemma countProposals_checkOpenTrades (t : List (ℕ × ℚ)) (p : ℚ) :
    countProposals (checkOpenTrades t p) = 0 := by
  induction t with
  | nil => rfl
  | cons kv rest ih =>
      unfold checkOpenTrades at ih ⊢
      rw [List.filterMap_cons]
      dsimp only
      split
      · exact ih
      · next b heq =>
          split at heq
          · cases heq
            rw [countProposals_cons_sell]
            exact ih
          · split at heq
            · cases heq
              rw [countProposals_cons_sell]
              exact ih
            · cases heq

lemma executeTrade_spec (e : EngineState) (g : RiskState) (db : DB) (now : ℕ) :
    ((executeTrade e g db now).engine.isTrading = e.isTrading ∧
      countProposals (executeTrade e g db now).orders = 0) ∨
    ((executeTrade e g db now).engine.isTrading = true ∧ e.isTrading = false ∧
      countProposals (executeTrade e g db now).orders = 1) := by
  unfold executeTrade
  by_cases ht : e.isTrading = true
  · rw [if_pos ht]
    exact Or.inl ⟨rfl, rfl⟩
  · rw [if_neg ht]
    dsimp only
    split
    · exact Or.inl ⟨by simp [Bool.not_eq_true] at ht; rw [ht], rfl⟩
    · exact Or.inr ⟨rfl, by simpa [Bool.not_eq_true] using ht, rfl⟩

lemma executeTrade_proj (e : EngineState) (g : RiskState) (db : DB) (now : ℕ) :
    (executeTrade e g db now).engine.marketState = e.marketState ∧
    (executeTrade e g db now).engine.smas = e.smas ∧
    (executeTrade e g db now).engine.activeTrades = e.activeTrades ∧
    (executeTrade e g db now).engine.cooldownUntil = e.cooldownUntil ∧
    (executeTrade e g db now).engine.currentPrice = e.currentPrice ∧
    (executeTrade e g db now).engine.previousPrice = e.previousPrice ∧
    (executeTrade e g db now).engine.prevSmas = e.prevSmas := by
  unfold executeTrade
  split
  · exact ⟨rfl, rfl, rfl, rfl, rfl, rfl, rfl⟩
  · dsimp only
    split
    · exact ⟨rfl, rfl, rfl, rfl, rfl, rfl, rfl⟩
    · exact ⟨rfl, rfl, rfl, rfl, rfl, rfl, rfl⟩

lemma onSMAsE_prevSmas (e : EngineState) (m : SMAs) (now : ℕ) :
    (onSMAsE e m now).engine.prevSmas = some m := rfl

lemma cooldown_blocks_proposals (s : Sys) (p : ℚ) (now : ℕ)
    (h : now < s.engine.cooldownUntil) :
    countProposals (onTickStep s p now).orders = 0 := by
  unfold onTickStep
  dsimp only
  split
  · exact countProposals_closeAllTrades _ _
  · split
    · exact countProposals_checkOpenTrades _ _
    · next prev heq =>
        split
        · exact countProposals_checkOpenTrades _ _
        · next hcool =>
            exfalso
            apply hcool
            have hc := (updateMarketState_proj
              { s.engine with previousPrice := s.engine.currentPrice, currentPrice := some p }).1
            rw [hc]
            exact h

/-! ### C7 — the crossover guard -/

/-- C7: on an `smas` update where `prev_smas` holds defined (positive)
SMA25/50/100 values and SMA25 crosses upward over SMA50 or SMA100
(`prev.sma25 ≤ prev.smaK ∧ new.sma25 > new.smaK`), a sell with reason
CROSSOVER_GUARD is issued for every open trade and `cooldown_until`
becomes `now + 5 min`; `prev_smas` is replaced by the new cluster in
every case; and no proposal can be issued by a tick arriving before
`cooldown_until`.  (Positivity of the SMA25 values reflects positive
market prices; the handler's truthiness guard reads them.) -/
theorem crossover_guard_closes_trades (e : EngineState) (m : SMAs) (now : ℕ)
    (P : SMAs) (hprev : e.prevSmas = some P)
    (p25 c25 : ℚ) (h25 : P.sma25 = .jnum p25) (hc25 : m.sma25 = .jnum c25)
    (hp25 : 0 < p25) (hc25p : 0 < c25)
    (hcross :
      (∃ p50 n50, P.sma50 = .jnum p50 ∧ m.sma50 = .jnum n50 ∧ p25 ≤ p50 ∧ n50 < c25) ∨
      (∃ p100 n100, P.sma100 = .jnum p100 ∧ m.sma100 = .jnum n100 ∧
        p25 ≤ p100 ∧ n100 < c25)) :
    (onSMAsE e m now).orders = closeAllTrades e.activeTrades .crossoverGuard ∧
    (onSMAsE e m now).engine.cooldownUntil = now + 5 * 60 * 1000 ∧
    (∀ (e2 : EngineState) (m2 : SMAs) (n2 : ℕ),
      (onSMAsE e2 m2 n2).engine.prevSmas = some m2) ∧
    (∀ (s : Sys) (pr : ℚ) (nw : ℕ), nw < s.engine.cooldownUntil →
      countProposals (onTickStep s pr nw).orders = 0) := by
  have hcond : ((jsNumLE p25 P.sma50 && jsNumGT c25 m.sma50) ||
      (jsNumLE p25 P.sma100 && jsNumGT c25 m.sma100)) = true := by
    rcases hcross with ⟨p50, n50, h1, h2, h3, h4⟩ | ⟨p100, n100, h1, h2, h3, h4⟩
    · rw [h1, h2]
      simp [jsNumLE, jsNumGT, h3, h4]
    · rw [h1, h2]
      simp [jsNumLE, jsNumGT, h3, h4]
  have hmain : (onSMAsE e m now).orders = closeAllTrades e.activeTrades .crossoverGuard ∧
      (onSMAsE e m now).engine.cooldownUntil = now + 5 * 60 * 1000 := by
    unfold onSMAsE
    have he1 : ({ e with smas := m } : EngineState).prevSmas = some P := hprev
    rw [he1]
    dsimp only
    rw [h25, hc25]
    dsimp only
    rw [if_pos ⟨ne_of_gt hp25, ne_of_gt hc25p⟩, if_pos hcond]
    exact ⟨rfl, rfl⟩
  exact ⟨hmain.1, hmain.2, fun e2 m2 n2 => onSMAsE_prevSmas e2 m2 n2,
    fun s pr nw h => cooldown_blocks_proposals s pr nw h⟩

/-- Witness for C7 at the spec's scenario (prev 49/50, new 51/50) with
one open trade. -/
theorem crossover_guard_closes_trades_witness :
    c7Engine.prevSmas = some c7Prev ∧
    (onSMAsE c7Engine c7New 0).orders = [.sell 7 .crossoverGuard] ∧
    (onSMAsE c7Engine c7New 0).engine.cooldownUntil = 300000 := by
  have h := crossover_guard_closes_trades c7Engine c7New 0 c7Prev rfl 49 51 rfl rfl
    (by norm_num) (by norm_num) (Or.inl ⟨50, 50, rfl, rfl, by norm_num, by norm_num⟩)
  exact ⟨rfl, h.1, h.2.1⟩

/-! ### Step-function projection lemmas -/

lemma onSMAsE_proj (e : EngineState) (m : SMAs) (now : ℕ) :
    (onSMAsE e m now).engine.isTrading = e.isTrading ∧
    (onSMAsE e m now).engine.smas = m ∧
    (onSMAsE e m now).engine.marketState = e.marketState ∧
    (onSMAsE e m now).engine.activeTrades = e.activeTrades ∧
    (onSMAsE e m now).engine.currentPrice = e.currentPrice := by
  unfold onSMAsE
  dsimp only
  repeat' split
  all_goals exact ⟨rfl, rfl, rfl, rfl, rfl⟩

lemma handleTradeClosedE_proj (e : EngineState) (db : DB) (cid : ℕ) (sp : ℚ) (now : ℕ) :
    (handleTradeClosedE e db cid sp now).1.isTrading = e.isTrading ∧
    (handleTradeClosedE e db cid sp now).1.smas = e.smas ∧
    (handleTradeClosedE e db cid sp now).1.marketState = e.marketState := by
  unfold handleTradeClosedE
  split
  · exact ⟨rfl, rfl, rfl⟩
  · exact ⟨rfl, rfl, rfl⟩

lemma onTickStep_inFlight (s : Sys) (p : ℚ) (now : ℕ) :
    (onTickStep s p now).sys.inFlight =
      s.inFlight + countProposals (onTickStep s p now).orders := by
  unfold onTickStep
  dsimp only
  repeat' split
  all_goals simp [countProposals_append, countProposals_checkOpenTrades,
    countProposals_closeAllTrades]

lemma onTickStep_isTrading_spec (s : Sys) (p : ℚ) (now : ℕ) :
    ((onTickStep s p now).sys.engine.isTrading = s.engine.isTrading ∧
      countProposals (onTickStep s p now).orders = 0) ∨
    ((onTickStep s p now).sys.engine.isTrading = true ∧ s.engine.isTrading = false ∧
      countProposals (onTickStep s p now).orders = 1) := by
  have hup := updateMarketState_proj
    { s.engine with previousPrice := s.engine.currentPrice, currentPrice := some p }
  unfold onTickStep
  dsimp only
  split
  · exact Or.inl ⟨rfl, countProposals_closeAllTrades _ _⟩
  · split
    · exact Or.inl ⟨rfl, countProposals_checkOpenTrades _ _⟩
    · split
      · exact Or.inl ⟨hup.2.2.1, countProposals_checkOpenTrades _ _⟩
      · split
        · split
          · rcases executeTrade_spec (updateMarketState { s.engine with previousPrice := s.engine.currentPrice, currentPrice := some p }) (processTick s.guard p now).2 s.db now with ⟨h1, h2⟩ | ⟨h1, h2, h3⟩
            · refine Or.inl ⟨h1.trans hup.2.2.1, ?_⟩
              rw [countProposals_append, countProposals_checkOpenTrades, h2]
            · refine Or.inr ⟨h1, hup.2.2.1.symm.trans h2, ?_⟩
              rw [countProposals_append, countProposals_checkOpenTrades, h3]
          · exact Or.inl ⟨hup.2.2.1, countProposals_checkOpenTrades _ _⟩
        · split
          · refine Or.inl ⟨hup.2.2.1, ?_⟩
            rw [countProposals_append, countProposals_checkOpenTrades,
              countProposals_closeAllTrades]
          · exact Or.inl ⟨hup.2.2.1, countProposals_checkOpenTrades _ _⟩

lemma onTickStep_smas (s : Sys) (p : ℚ) (now : ℕ) :
    (onTickStep s p now).sys.engine.smas = s.engine.smas := by
  have hup := updateMarketState_proj
    { s.engine with previousPrice := s.engine.currentPrice, currentPrice := some p }
  unfold onTickStep
  dsimp only
  repeat' split
  all_goals first
    | rfl
    | exact hup.2.2.2.1
    | exact (executeTrade_proj _ _ _ _).2.1.trans hup.2.2.2.1

lemma onTickStep_marketState_cases (s : Sys) (p : ℚ) (now : ℕ) :
    (onTickStep s p now).sys.engine.marketState = s.engine.marketState ∨
    (onTickStep s p now).sys.engine.marketState =
      (updateMarketState { s.engine with previousPrice := s.engine.currentPrice, currentPrice := some p }).marketState := by
  unfold onTickStep
  dsimp only
  repeat' split
  all_goals first
    | exact Or.inl rfl
    | exact Or.inr rfl
    | exact Or.inr (executeTrade_proj _ _ _ _).1

lemma onTickStep_marketState_noTrain (s : Sys) (p : ℚ) (now : ℕ)
    (hnt : (processTick s.guard p now).1 = false) (pp : ℚ)
    (hprev : s.engine.currentPrice = some pp) :
    (onTickStep s p now).sys.engine.marketState =
      (updateMarketState { s.engine with previousPrice := s.engine.currentPrice, currentPrice := some p }).marketState := by
  unfold onTickStep
  dsimp only
  split
  · next htr => rw [hnt] at htr; exact absurd htr (by simp)
  · split
    · next heq =>
        rw [hprev] at heq
        simp at heq
    · split
      · rfl
      · split
        · split
          · exact (executeTrade_proj _ _ _ _).1
          · rfl
        · split
          · rfl
          · rfl

/-! ### Reachability invariants -/

lemma jsval_isNum_iff (m : JsVal) : m.isNum = true ↔ ∃ x, m = .jnum x := by
  cases m <;> simp [JsVal.isNum]

lemma reachable_inv1 {db0 : DB} {s : Sys} (h : Reachable db0 s) :
    s.inFlight ≤ 1 ∧ (s.inFlight = 1 → s.engine.isTrading = true) := by
  induction h with
  | init => exact ⟨Nat.zero_le 1, fun h1 => absurd h1 (by simp [initSys])⟩
  | @next s' e hr hen ih =>
      cases e with
      | tick p now =>
          have hif := onTickStep_inFlight s' p now
          rcases onTickStep_isTrading_spec s' p now with ⟨ht, hc⟩ | ⟨ht, hf, hc⟩
          · show (onTickStep s' p now).sys.inFlight ≤ 1 ∧
              ((onTickStep s' p now).sys.inFlight = 1 →
                (onTickStep s' p now).sys.engine.isTrading = true)
            rw [hif, hc]
            refine ⟨by simpa using ih.1, fun h1 => ?_⟩
            rw [ht]
            exact ih.2 (by simpa using h1)
          · have h0 : s'.inFlight = 0 := by
              by_contra h0
              have h1 : s'.inFlight = 1 := by
                have := ih.1
                omega
              rw [ih.2 h1] at hf
              exact absurd hf (by simp)
            show (onTickStep s' p now).sys.inFlight ≤ 1 ∧
              ((onTickStep s' p now).sys.inFlight = 1 →
                (onTickStep s' p now).sys.engine.isTrading = true)
            rw [hif, hc, h0]
            exact ⟨by omega, fun _ => ht⟩
      | smasUpd m now =>
          have hp := onSMAsE_proj s'.engine m now
          exact ⟨ih.1, fun h1 => hp.1.trans (ih.2 h1)⟩
      | tradeOpened cid bp =>
          obtain ⟨hle, _⟩ := ih
          show s'.inFlight - 1 ≤ 1 ∧ (s'.inFlight - 1 = 1 → _)
          exact ⟨by omega, fun hq => absurd hq (by omega)⟩
      | tradeClosed cid sp now =>
          have hp := handleTradeClosedE_proj s'.engine s'.db cid sp now
          exact ⟨ih.1, fun h1 => hp.1.trans (ih.2 h1)⟩
      | rateLimited now =>
          obtain ⟨hle, _⟩ := ih
          show s'.inFlight - 1 ≤ 1 ∧ (s'.inFlight - 1 = 1 → _)
          exact ⟨by omega, fun hq => absurd hq (by omega)⟩
      | execFailed =>
          obtain ⟨hle, _⟩ := ih
          show s'.inFlight - 1 ≤ 1 ∧ (s'.inFlight - 1 = 1 → _)
          exact ⟨by omega, fun hq => absurd hq (by omega)⟩

lemma reachable_inv2 {db0 : DB} {s : Sys} (h : Reachable db0 s) :
    (s.engine.marketState = .permissive → s.engine.smas.sma200.truthy = true) ∧
    (s.engine.smas.sma200.isNum = true →
      s.engine.smas.sma100.isNum = true ∧ s.engine.smas.sma50.isNum = true) := by
  induction h with
  | init =>
      constructor
      · intro h1
        exact absurd h1 (by simp [initSys, initEngine])
      · intro h2
        exact absurd h2 (by simp [initSys, initEngine, JsVal.isNum])
  | @next s' e hr hen ih =>
      cases e with
      | tick p now =>
          have hsm := onTickStep_smas s' p now
          show ((onTickStep s' p now).sys.engine.marketState = .permissive →
              (onTickStep s' p now).sys.engine.smas.sma200.truthy = true) ∧
            ((onTickStep s' p now).sys.engine.smas.sma200.isNum = true →
              (onTickStep s' p now).sys.engine.smas.sma100.isNum = true ∧
              (onTickStep s' p now).sys.engine.smas.sma50.isNum = true)
          constructor
          · intro hperm
            rw [hsm]
            rcases onTickStep_marketState_cases s' p now with hms | hms
            · exact ih.1 (hms.symm.trans hperm)
            · rcases updateMarketState_permissive _ (hms.symm.trans hperm) with htr | hpr
              · exact htr
              · exact ih.1 hpr
          · intro hnum
            rw [hsm] at hnum ⊢
            exact ih.2 hnum
      | smasUpd m now =>
          have hp := onSMAsE_proj s'.engine m now
          have hen' : ((!(s'.engine.smas.sma200.truthy) || m.sma200.truthy) &&
              (!(m.sma200.isNum) || (m.sma100.isNum && m.sma50.isNum))) = true := hen
          simp only [Bool.and_eq_true, Bool.or_eq_true, Bool.not_eq_true'] at hen'
          show ((onSMAsE s'.engine m now).engine.marketState = .permissive →
              (onSMAsE s'.engine m now).engine.smas.sma200.truthy = true) ∧
            ((onSMAsE s'.engine m now).engine.smas.sma200.isNum = true →
              (onSMAsE s'.engine m now).engine.smas.sma100.isNum = true ∧
              (onSMAsE s'.engine m now).engine.smas.sma50.isNum = true)
          constructor
          · intro hperm
            rw [hp.2.1]
            have hold := ih.1 (hp.2.2.1.symm.trans hperm)
            rcases hen'.1 with hfalse | htrue
            · rw [hold] at hfalse
              exact absurd hfalse (by simp)
            · exact htrue
          · intro hnum
            rw [hp.2.1] at hnum ⊢
            rcases hen'.2 with hfalse | htrue
            · rw [hnum] at hfalse
              exact absurd hfalse (by simp)
            · exact htrue
      | tradeOpened cid bp =>
          exact ⟨fun h1 => ih.1 h1, fun h2 => ih.2 h2⟩
      | tradeClosed cid sp now =>
          have hp := handleTradeClosedE_proj s'.engine s'.db cid sp now
          show ((handleTradeClosedE s'.engine s'.db cid sp now).1.marketState = .permissive →
              (handleTradeClosedE s'.engine s'.db cid sp now).1.smas.sma200.truthy = true) ∧
            ((handleTradeClosedE s'.engine s'.db cid sp now).1.smas.sma200.isNum = true →
              (handleTradeClosedE s'.engine s'.db cid sp now).1.smas.sma100.isNum = true ∧
              (handleTradeClosedE s'.engine s'.db cid sp now).1.smas.sma50.isNum = true)
          constructor
          · intro hperm
            rw [hp.2.1]
            exact ih.1 (hp.2.2.symm.trans hperm)
          · intro hnum
            rw [hp.2.1] at hnum ⊢
            exact ih.2 hnum
      | rateLimited now =>
          exact ⟨fun h1 => ih.1 h1, fun h2 => ih.2 h2⟩
      | execFailed =>
          exact ⟨fun h1 => ih.1 h1, fun h2 => ih.2 h2⟩

/-! ### C1 — open trades and the is_trading guard -/

/-- C1, counterexample: a valid composed run (every event enabled, each
`trade_opened` answering a real proposal) after which `active_trades`
holds TWO entries.  Neither `onTick` nor `executeTrade` consults
`active_trades` before proposing, so a second spike while a trade is
open produces a second concurrent trade. -/
theorem strategy_engine_tracks_two_open_trades :
    validRun [] twoTradesTrace = true ∧
    (runEvents [] twoTradesTrace).engine.activeTrades = [(1, 104.1), (2, 108.3)] ∧
    ¬ (runEvents [] twoTradesTrace).engine.activeTrades.length ≤ 1 := by decide

/-- C1, amended: along every reachable state of the composed system the
`is_trading` guard — taken synchronously before the proposal send and
released on `trade_opened` or any broker error — keeps at most one
proposal in flight (`inFlight ≤ 1`, and a pending proposal implies the
lock is held).  The number of entries in `active_trades`, however, is
not bounded by 1. -/
theorem at_most_one_proposal_in_flight (db0 : DB) (s : Sys) (h : Reachable db0 s) :
    s.inFlight ≤ 1 ∧ (s.inFlight = 1 → s.engine.isTrading = true) :=
  reachable_inv1 h

/-- Witness for C1's amended theorem at a concrete reachable state. -/
theorem at_most_one_proposal_in_flight_witness :
    c2Base.inFlight ≤ 1 ∧ (c2Base.inFlight = 1 → c2Base.engine.isTrading = true) :=
  at_most_one_proposal_in_flight [] c2Base
    (Reachable.next (.tick 100 1)
      (Reachable.next (.smasUpd smas110 0) Reachable.init (by decide)) (by decide))

/-! ### C2 — the PERMISSIVE characterization -/

lemma permissiveSpec_eq_true_iff (m : SMAs) (p : ℚ) :
    permissiveSpec m p = true ↔
      ∃ a b c, m.sma50 = .jnum a ∧ m.sma100 = .jnum b ∧ m.sma200 = .jnum c ∧
        p < min a (min b c) := by
  unfold permissiveSpec
  rcases m with ⟨s200, s100, s50, s25⟩
  dsimp only
  cases s50 <;> cases s100 <;> cases s200 <;> simp

/-- C2, counterexample: a valid run whose final tick (price 115, previous
price defined) is a train tick — the handler returns before recomputing
the market state, which stays PERMISSIVE although the price now sits far
above the whole SMA cluster (all at 110).  The claimed biconditional
fails on this processed tick. -/
theorem market_state_stale_on_train_tick :
    validRun [] trainTickTrace = true ∧
    Enabled preTrainSys (.tick 115 4) = true ∧
    preTrainSys.engine.currentPrice = some (107.2 : ℚ) ∧
    (processTick preTrainSys.guard 115 4).1 = true ∧
    (step preTrainSys (.tick 115 4)).engine.marketState = .permissive ∧
    permissiveSpec preTrainSys.engine.smas 115 = false := by decide

/-- C2, amended: after each processed tick with a defined previous price
on which the train detector did not fire, `market_state = PERMISSIVE`
iff sma50, sma100, sma200 are all defined and the tick price is strictly
below their minimum; in every other case (including an undefined sma200)
it is RESTRICTED.  (Positive tick prices per the environment; on a train
tick the handler returns before `updateMarketState`, so the equivalence
can be stale there — see the counterexample.) -/
theorem market_state_permissive_iff_price_below_smas (db0 : DB) (s : Sys)
    (h : Reachable db0 s) (p : ℚ) (now : ℕ)
    (hen : Enabled s (.tick p now) = true)
    (pp : ℚ) (hprev : s.engine.currentPrice = some pp)
    (hnt : (processTick s.guard p now).1 = false) :
    ((step s (.tick p now)).engine.marketState = .permissive ↔
      permissiveSpec s.engine.smas p = true) := by
  have hpos : (0 : ℚ) < p := of_decide_eq_true hen
  have hms := onTickStep_marketState_noTrain s p now hnt pp hprev
  have hinv := reachable_inv2 h
  show (onTickStep s p now).sys.engine.marketState = .permissive ↔ _
  rw [hms, permissiveSpec_eq_true_iff]
  by_cases htr : s.engine.smas.sma200.truthy = true
  · have hnum200 : s.engine.smas.sma200.isNum = true := by
      cases h2 : s.engine.smas.sma200 <;>
        simp [JsVal.truthy, JsVal.isNum, h2] at htr ⊢
    obtain ⟨v, hv⟩ := (jsval_isNum_iff _).mp hnum200
    obtain ⟨b, hb⟩ := (jsval_isNum_iff _).mp (hinv.2 hnum200).1
    obtain ⟨a, ha⟩ := (jsval_isNum_iff _).mp (hinv.2 hnum200).2
    have hvne : v ≠ 0 := by
      rw [hv] at htr
      simpa [JsVal.truthy] using htr
    have hupd : (updateMarketState { s.engine with previousPrice := s.engine.currentPrice, currentPrice := some p }).marketState
        = if v ≤ p ∨ b ≤ p ∨ a ≤ p then MarketState.restricted
          else MarketState.permissive := by
      unfold updateMarketState
      split
      · next hcc => exact absurd htr hcc
      · dsimp only
        simp only [hv, hb, ha, jsGE, Option.getD_some, decide_eq_true_eq]
        split_ifs <;> rfl
    rw [hupd]
    by_cases hcond : v ≤ p ∨ b ≤ p ∨ a ≤ p
    · rw [if_pos hcond]
      constructor
      · intro hq
        exact absurd hq (by decide)
      · rintro ⟨a', b', c', ha', hb', hc', hlt⟩
        exfalso
        rw [ha] at ha'
        rw [hb] at hb'
        rw [hv] at hc'
        injection ha' with ha2
        injection hb' with hb2
        injection hc' with hc2
        rw [← ha2, ← hb2, ← hc2, lt_min_iff, lt_min_iff] at hlt
        rcases hcond with hle | hle | hle
        · exact absurd hlt.2.2 (not_lt.mpr hle)
        · exact absurd hlt.2.1 (not_lt.mpr hle)
        · exact absurd hlt.1 (not_lt.mpr hle)
    · rw [if_neg hcond]
      push_neg at hcond
      constructor
      · intro _
        refine ⟨a, b, v, ha, hb, hv, ?_⟩
        rw [lt_min_iff, lt_min_iff]
        exact ⟨hcond.2.2, hcond.2.1, hcond.1⟩
      · intro _
        rfl
  · rw [updateMarketState_of_not_truthy { s.engine with previousPrice := s.engine.currentPrice, currentPrice := some p } htr]
    constructor
    · intro hperm
      exact absurd (hinv.1 hperm) htr
    · rintro ⟨a, b, v, ha, hb, hv, hlt⟩
      exfalso
      have hv0 : v = 0 := by
        rw [hv] at htr
        simpa [JsVal.truthy] using htr
      rw [hv0] at hlt
      have hneg : p < 0 :=
        lt_of_lt_of_le hlt (le_trans (min_le_right _ _) (min_le_right _ _))
      linarith

/-- Witness for C2's amended theorem: one quiet tick after warm-up. -/
theorem market_state_permissive_iff_price_below_smas_witness :
    Enabled c2Base (.tick 101 2) = true ∧
    c2Base.engine.currentPrice = some 100 ∧
    (processTick c2Base.guard 101 2).1 = false ∧
    ((step c2Base (.tick 101 2)).engine.marketState = .permissive ↔
      permissiveSpec c2Base.engine.smas 101 = true) :=
  ⟨by decide, by decide, by decide,
   market_state_permissive_iff_price_below_smas [] c2Base
     (Reachable.next (.tick 100 1)
       (Reachable.next (.smasUpd smas110 0) Reachable.init (by decide)) (by decide))
     101 2 (by decide) 100 (by decide) (by decide)⟩

end DerivAlgo
